import Mathlib

/-!
Verification of the client-side transparent encryption layer of the
secretjs distribution (EnigmaUtils, RestClient, CosmWasmClient,
SigningCosmWasmClient, logs parsing).

The JavaScript sources are shallowly embedded: byte strings become
`List Nat`, fallible operations return `Except String _` or `Option _`,
and the stateful clients become explicit state records threaded through
the operations.  External npm dependencies (the miscreant AES-SIV
implementation, curve25519-js, js-crypto-hkdf, and the @iov/encoding
codecs) are not part of the repository; they are modelled as executable
Lean functions that expose exactly the interface properties the client
code relies on (determinism, injectivity of encodings, partial inverses
that fail on garbage, authenticated decryption that fails on tag
mismatch).  Every model is documented at its definition site.
-/

namespace SecretJS

/-- Byte strings of the JavaScript `Uint8Array` values, modelled as lists
of natural numbers. -/
abbrev Bytes := List Nat

/-! ## Binary-to-text codec models

`@iov/encoding`'s `Encoding.toBase64/fromBase64` and
`Encoding.toHex/fromHex` are external library code.  They are modelled by
a generic injective byte-to-text code: byte `n` becomes `n` copies of a
marker character followed by a terminator character.  The model keeps the
two properties the client code depends on: encoding is injective, and
decoding is a partial inverse that fails on strings not produced by the
encoder. -/

/-- One byte of the codec model: `n` marker characters then a terminator. -/
def natCode (c stop : Char) (n : Nat) : List Char :=
  List.replicate n c ++ [stop]

/-- Encode a byte string with marker `c` and terminator `stop`. -/
def encodeWith (c stop : Char) (bs : Bytes) : String :=
  ⟨bs.foldr (fun b acc => natCode c stop b ++ acc) []⟩

/-- Decoder loop: `acc` counts marker characters seen since the last
terminator.  Any other character makes the input invalid. -/
def decodeWithAux (c stop : Char) : List Char → Nat → Option Bytes
  | [], 0 => some []
  | [], _ + 1 => none
  | x :: rest, acc =>
    if x = c then decodeWithAux c stop rest (acc + 1)
    else if x = stop then (decodeWithAux c stop rest 0).map (acc :: ·)
    else none

/-- Decode a string produced by `encodeWith`; `none` on invalid input. -/
def decodeWith (c stop : Char) (s : String) : Option Bytes :=
  decodeWithAux c stop s.data 0

/-- Model of `Encoding.toBase64`. -/
def toBase64 (bs : Bytes) : String := encodeWith 'A' '=' bs

/-- Model of `Encoding.fromBase64`; fails on invalid base64. -/
def fromBase64 (s : String) : Option Bytes := decodeWith 'A' '=' s

/-- Model of `Encoding.toHex`. -/
def toHex (bs : Bytes) : String := encodeWith 'x' ';' bs

/-- Model of `Encoding.fromHex`; fails on invalid hex. -/
def fromHex (s : String) : Option Bytes := decodeWith 'x' ';' s

/-! ## UTF-8 codec model

`Encoding.toUtf8/fromUtf8` are modelled at the code-point level: a string
becomes the list of its characters' code points.  The model keeps the
interface properties used by the client: `toUtf8` is injective,
`fromUtf8` is a partial inverse and fails (the library throws) on byte
strings that are not valid encodings of a string. -/

/-- Model of `Encoding.toUtf8`. -/
def toUtf8 (s : String) : Bytes := s.data.map Char.toNat

/-- Model of `Encoding.fromUtf8`; fails when some byte is not a valid
character code point. -/
def fromUtf8 (bs : Bytes) : Option String :=
  if _h : ∀ n ∈ bs, Nat.isValidChar n then some ⟨bs.map Char.ofNat⟩ else none

/-! ## JSON model

The JavaScript sources treat contract messages and query payloads as
JSON values serialized with `JSON.stringify` and parsed with
`JSON.parse`.  JSON documents are modelled by an inductive type; numbers
are modelled as integers. -/

inductive Json where
  | null
  | bool (b : Bool)
  | num (n : Int)
  | str (s : String)
  | arr (items : List Json)
  | obj (fields : List (String × Json))

/-- A JSON string literal (escaping is not modelled). -/
def quoteStr (s : String) : String := "\"" ++ s ++ "\""

mutual

/-- Model of `JSON.stringify`. -/
def Json.stringify : Json → String
  | .null => "null"
  | .bool b => cond b "true" "false"
  | .num n => toString n
  | .str s => quoteStr s
  | .arr items => "[" ++ stringifyItems items ++ "]"
  | .obj fields => "\x7b" ++ stringifyFields fields ++ "\x7d"

/-- Comma-separated serialization of array elements. -/
def stringifyItems : List Json → String
  | [] => ""
  | [j] => Json.stringify j
  | j :: rest => Json.stringify j ++ "," ++ stringifyItems rest

/-- Comma-separated serialization of object members. -/
def stringifyFields : List (String × Json) → String
  | [] => ""
  | [(k, v)] => quoteStr k ++ ":" ++ Json.stringify v
  | (k, v) :: rest => quoteStr k ++ ":" ++ Json.stringify v ++ "," ++ stringifyFields rest

end

/-- JavaScript truthiness of a JSON value (`null`, `false`, `0` and the
empty string are falsy; arrays and objects are truthy). -/
def jsTruthy : Json → Bool
  | .null => false
  | .bool b => b
  | .num n => decide (n ≠ 0)
  | .str s => decide (s ≠ "")
  | .arr _ => true
  | .obj _ => true

/-- The opening brace character of a JSON object document. -/
def lbrace : Char := Char.ofNat 123

/-- The closing brace character of a JSON object document. -/
def rbrace : Char := Char.ofNat 125

/-- Digit run of a JSON number literal. -/
def digitsToNat (ds : List Char) : Nat :=
  ds.foldl (fun a c => a * 10 + (c.toNat - 48)) 0

/-- Parse a natural number literal; fails when no leading digit. -/
def parseNatLit (cs : List Char) : Option (Nat × List Char) :=
  let ds := cs.takeWhile Char.isDigit
  if ds.isEmpty then none
  else some (digitsToNat ds, cs.dropWhile Char.isDigit)

/-- Parse the body of a JSON string literal up to the closing quote
(escape sequences are not modelled). -/
def parseStringBody : List Char → List Char → Option (String × List Char)
  | [], _ => none
  | c :: rest, acc =>
    if c = '"' then some (⟨acc.reverse⟩, rest) else parseStringBody rest (c :: acc)

mutual

/-- Model of `JSON.parse` (recursive descent, fuel-indexed): one JSON
value and the remaining input, or `none` on invalid input. -/
def parseJsonAux : Nat → List Char → Option (Json × List Char)
  | 0, _ => none
  | _ + 1, 'n' :: 'u' :: 'l' :: 'l' :: rest => some (.null, rest)
  | _ + 1, 't' :: 'r' :: 'u' :: 'e' :: rest => some (.bool true, rest)
  | _ + 1, 'f' :: 'a' :: 'l' :: 's' :: 'e' :: rest => some (.bool false, rest)
  | _ + 1, '"' :: rest => (parseStringBody rest []).map fun p => (.str p.1, p.2)
  | _ + 1, '-' :: rest =>
    (parseNatLit rest).map fun p => (.num (-(p.1 : Int)), p.2)
  | fuel + 1, c :: rest =>
    if c = '[' then
      match rest with
      | c2 :: rest2 =>
        if c2 = ']' then some (.arr [], rest2)
        else (parseArrItems fuel (c2 :: rest2)).map fun p => (.arr p.1, p.2)
      | [] => none
    else if c = lbrace then
      match rest with
      | c2 :: rest2 =>
        if c2 = rbrace then some (.obj [], rest2)
        else (parseObjItems fuel (c2 :: rest2)).map fun p => (.obj p.1, p.2)
      | [] => none
    else if c.isDigit then
      (parseNatLit (c :: rest)).map fun p => (.num (p.1 : Int), p.2)
    else none
  | _ + 1, [] => none

/-- Array elements: value, then `,` and more elements or `]`. -/
def parseArrItems : Nat → List Char → Option (List Json × List Char)
  | 0, _ => none
  | fuel + 1, cs =>
    match parseJsonAux fuel cs with
    | none => none
    | some (j, rest) =>
      match rest with
      | ',' :: rest2 => (parseArrItems fuel rest2).map fun p => (j :: p.1, p.2)
      | ']' :: rest2 => some ([j], rest2)
      | _ => none

/-- Object members: quoted key, `:`, value, then `,` or closing brace. -/
def parseObjItems : Nat → List Char → Option (List (String × Json) × List Char)
  | 0, _ => none
  | fuel + 1, cs =>
    match cs with
    | '"' :: rest =>
      match parseStringBody rest [] with
      | none => none
      | some (k, rest2) =>
        match rest2 with
        | ':' :: rest3 =>
          match parseJsonAux fuel rest3 with
          | none => none
          | some (v, rest4) =>
            match rest4 with
            | ',' :: rest5 => (parseObjItems fuel rest5).map fun p => ((k, v) :: p.1, p.2)
            | c :: rest5 => if c = rbrace then some ([(k, v)], rest5) else none
            | [] => none
        | _ => none
    | _ => none

end

/-- Model of `JSON.parse`: the whole input must be one JSON document. -/
def parseJson (s : String) : Option Json :=
  match parseJsonAux (s.data.length + 1) s.data with
  | some (j, []) => some j
  | _ => none

/-! ## Crypto primitive models

AES-SIV (miscreant), X25519 (curve25519-js) and HKDF-SHA256
(js-crypto-hkdf) are external dependencies.  They are modelled as
executable deterministic functions with the interface properties the
client relies on: the SIV seal/open pair is a deterministic AEAD whose
`open` inverts `seal` under the same key and fails on a tag mismatch,
key derivation is a deterministic function of its inputs, and key
material always has length 32. -/

/-- The 16-byte synthetic IV of the AES-SIV model, a keyed checksum of
the plaintext. -/
def sivTag (key pt : Bytes) : Bytes :=
  List.replicate 16 ((key.sum + 2 * pt.sum + 3 * pt.length) % 256)

/-- Model of `miscreant.SIV.seal` with the associated-data list
`[empty]` used throughout the client: tag followed by the plaintext. -/
def sivSeal (key pt : Bytes) : Bytes := sivTag key pt ++ pt

/-- Model of `miscreant.SIV.open` with associated data `[empty]`:
recompute the tag and fail on mismatch. -/
def sivOpen (key ct : Bytes) : Option Bytes :=
  if ct.length < 16 then none
  else if ct.take 16 = sivTag key (ct.drop 16) then some (ct.drop 16) else none

/-- Model of curve25519-js `sharedKey` (X25519 ECDH): a deterministic
32-byte function of the two keys. -/
def sharedKey (priv pub : Bytes) : Bytes :=
  (List.range 32).map fun i => (3 * priv.sum + 5 * pub.sum + 11 * i) % 256

/-- Model of js-crypto-hkdf `compute` with SHA-256, output length 32 and
empty info: a deterministic 32-byte function of ikm and salt. -/
def hkdfCompute (ikm salt : Bytes) : Bytes :=
  (List.range 32).map fun i => (ikm.sum + 7 * salt.sum + 3 * i) % 256

/-- The fixed 32-byte HKDF salt of enigmautils.js. -/
def hkdfSalt : Bytes :=
  [0x00, 0x00, 0x00, 0x00, 0x00, 0x00, 0x00, 0x00, 0x00, 0x02, 0x4b, 0xea,
   0xd8, 0xdf, 0x69, 0x99, 0x08, 0x52, 0xc2, 0x02, 0xdb, 0x0e, 0x00, 0x97,
   0xc1, 0xa1, 0x2e, 0xa6, 0x37, 0xd7, 0xe9, 0x6d]

/-- RFC 7748 clamping of an X25519 private scalar: clear the low three
bits of byte 0, clear bit 7 and set bit 6 of byte 31. -/
def clampScalar (seed : Bytes) : Bytes :=
  seed.enum.map fun p =>
    if p.1 = 0 then p.2 % 256 / 8 * 8
    else if p.1 = 31 then 64 + p.2 % 64
    else p.2

/-- Model of the X25519 base-point scalar multiplication: a deterministic
32-byte public key. -/
def scalarMultBase (sk : Bytes) : Bytes :=
  (List.range 32).map fun i => (9 * sk.sum + 13 * i + 7) % 256

/-- An X25519 keypair as returned by curve25519-js. -/
structure Keypair where
  privkey : Bytes
  pubkey : Bytes
deriving DecidableEq

/-- Modelled from the spec: curve25519-js `generateKeyPair`, the external
keypair-derivation function called by `EnigmaUtils` (its source is not
part of this repository).  Per spec §4.A it MUST reject seeds whose
length is not 32 and is infallible once the seed length is 32; the
private scalar is clamped per RFC 7748 and the public key is the
base-point multiple of the private scalar. -/
def generateKeyPair (seed : Bytes) : Except String Keypair :=
  if seed.length = 32 then
    .ok { privkey := clampScalar seed, pubkey := scalarMultBase (clampScalar seed) }
  else .error "wrong seed length"

/-! ## EnigmaUtils (src/build/enigmautils.js)

The class state is a record; `secureRandom` draws are passed in as
explicit `entropy`/`nonce` parameters; the consensus-io-pubkey fetch
receives the server's `result.ioExchPubkey` string as a parameter. -/

/-- The `EnigmaUtils` instance state. -/
structure EnigmaUtils where
  apiUrl : String
  seed : Bytes
  privkey : Bytes
  pubkey : Bytes
  /-- The consensus-io-pubkey cache; the constructor initializes it to
  the empty byte string. -/
  consensusIoPubKey : Bytes
deriving DecidableEq

/-- Model of `EnigmaUtils.GenerateNewSeed`: `secureRandom(32)`, with the
CSPRNG draw supplied as the explicit `entropy` parameter. -/
def EnigmaUtils.GenerateNewSeed (entropy : Bytes) : Bytes := entropy

/-- `EnigmaUtils.GenerateNewKeyPairFromSeed` forwards to the curve25519
keypair derivation. -/
def EnigmaUtils.GenerateNewKeyPairFromSeed (seed : Bytes) : Except String Keypair :=
  generateKeyPair seed

/-- The `EnigmaUtils` constructor: take the caller's seed when one was
passed (any JavaScript `Uint8Array`, even an empty one, is truthy),
otherwise a fresh random seed; then derive the keypair. -/
def EnigmaUtils.create (apiUrl : String) (seed? : Option Bytes) (entropy : Bytes) :
    Except String EnigmaUtils :=
  let actualSeed := match seed? with
    | none => EnigmaUtils.GenerateNewSeed entropy
    | some s => s
  match generateKeyPair actualSeed with
  | .error e => .error e
  | .ok kp =>
    .ok { apiUrl := apiUrl, seed := actualSeed, privkey := kp.privkey,
          pubkey := kp.pubkey, consensusIoPubKey := [] }

/-- `EnigmaUtils.getConsensusIoPubKey`: return the cache when it holds
32 bytes, otherwise base64-decode the server's `result.ioExchPubkey`
(passed as `ioExchPubkey`), store it in the cache field and return it.
The decoded value is stored without any length check. -/
def EnigmaUtils.getConsensusIoPubKey (st : EnigmaUtils) (ioExchPubkey : String) :
    Except String (Bytes × EnigmaUtils) :=
  if st.consensusIoPubKey.length = 32 then .ok (st.consensusIoPubKey, st)
  else
    match fromBase64 ioExchPubkey with
    | some bs => .ok (bs, { st with consensusIoPubKey := bs })
    | none => .error "invalid base64 in ioExchPubkey"

/-- `EnigmaUtils.getTxEncryptionKey` with the consensus io pubkey already
resolved to `ioPub` (the stateful resolution is
`EnigmaUtils.getConsensusIoPubKey` above): HKDF-SHA256 over the ECDH
shared key concatenated with the nonce, under the fixed salt. -/
def getTxEncryptionKey (privkey ioPub nonce : Bytes) : Bytes :=
  hkdfCompute (sharedKey privkey ioPub ++ nonce) hkdfSalt

/-- `EnigmaUtils.encrypt`: derive the per-transaction key from the fresh
32-byte `nonce` (the `secureRandom` draw, passed explicitly), seal
`utf8(contractCodeHash ++ JSON.stringify msg)`, and frame the result as
`nonce ++ pubkey ++ ciphertext`. -/
def EnigmaUtils.encrypt (st : EnigmaUtils) (ioPub nonce : Bytes)
    (contractCodeHash : String) (msg : Json) : Bytes :=
  let txEncryptionKey := getTxEncryptionKey st.privkey ioPub nonce
  let plaintext := toUtf8 (contractCodeHash ++ msg.stringify)
  let ciphertext := sivSeal txEncryptionKey plaintext
  nonce ++ st.pubkey ++ ciphertext

/-- `EnigmaUtils.decrypt`: empty ciphertext decrypts to the empty byte
string; otherwise re-derive the key from the nonce and open. -/
def EnigmaUtils.decrypt (st : EnigmaUtils) (ioPub : Bytes) (ciphertext nonce : Bytes) :
    Except String Bytes :=
  if ciphertext.length = 0 then .ok []
  else
    let txEncryptionKey := getTxEncryptionKey st.privkey ioPub nonce
    match sivOpen txEncryptionKey ciphertext with
    | some pt => .ok pt
    | none => .error "SIV authentication failed"

/-! ## Logs data model (src/build/logs.js types) -/

/-- A log event attribute. -/
structure Attribute where
  key : String
  value : String
deriving DecidableEq

/-- A log event with its type tag and attributes. -/
structure Event where
  type : String
  attributes : List Attribute
deriving DecidableEq

/-- One per-message log entry. -/
structure Log where
  msg_index : Int
  log : String
  events : List Event
deriving DecidableEq

/-! ## String matching helpers

The two error-decryption paths of restclient.js use the JavaScript
regular expressions
`contract failed: encrypted: (.+?): failed to execute message; message index: 0`
and `contract failed: encrypted: (.+?) \(HTTP 500\)`, and
`String.replace` with a literal pattern (first occurrence).  They are
modelled by a leftmost search with a lazy nonempty capture. -/

/-- Lazy capture: grow the capture one character at a time until the
tail pattern `p2` matches immediately after it. -/
def lazyCapture (p2 : List Char) : List Char → List Char → Option (List Char)
  | [], _ => none
  | c :: rest, acc =>
    if p2.isPrefixOf rest then some (acc ++ [c])
    else lazyCapture p2 rest (acc ++ [c])

/-- Leftmost match of `p1 (.+?) p2`, returning the capture group. -/
def findCapture (p1 p2 : List Char) : List Char → Option (List Char)
  | [] => none
  | c :: rest =>
    if p1.isPrefixOf (c :: rest) then
      match lazyCapture p2 ((c :: rest).drop p1.length) [] with
      | some cap => some cap
      | none => findCapture p1 p2 rest
    else findCapture p1 p2 rest

/-- Replace the first occurrence of `pat` (JavaScript
`String.replace` with a string pattern). -/
def replaceFirstAux (pat repl : List Char) : List Char → List Char
  | [] => []
  | c :: rest =>
    if pat.isPrefixOf (c :: rest) then repl ++ (c :: rest).drop pat.length
    else c :: replaceFirstAux pat repl rest

/-- `String.replace` on strings, first occurrence only. -/
def replaceFirst (s pat repl : String) : String :=
  ⟨replaceFirstAux pat.data repl.data s.data⟩

/-- Left part of the execute/historical-tx error regex. -/
def txErrHead : List Char := "contract failed: encrypted: ".data

/-- Right part of the execute/historical-tx error regex. -/
def txErrTail : List Char := ": failed to execute message; message index: 0".data

/-- Tail of the smart-query HTTP 500 error regex. -/
def queryErrTail : List Char := " (HTTP 500)".data

/-! ## RestClient decryption paths (src/build/restclient.js)

The consensus io pubkey used by the `EnigmaUtils` methods is passed as
the resolved `ioPub` parameter (see `EnigmaUtils.getConsensusIoPubKey`). -/

/-- One field (key or value) of a wasm event attribute:
`fromUtf8(decrypt(fromBase64(field)))`, with the whole attempt wrapped
in `try ... catch` — any failure leaves the field unchanged. -/
def decryptAttrField (st : EnigmaUtils) (ioPub nonce : Bytes) (field : String) : String :=
  match fromBase64 field with
  | none => field
  | some bz =>
    match st.decrypt ioPub bz nonce with
    | .error _ => field
    | .ok pt =>
      match fromUtf8 pt with
      | none => field
      | some s => s

/-- Both fields of an attribute, each in its own `try` block. -/
def decryptAttr (st : EnigmaUtils) (ioPub nonce : Bytes) (a : Attribute) : Attribute :=
  { key := decryptAttrField st ioPub nonce a.key,
    value := decryptAttrField st ioPub nonce a.value }

/-- Attributes of events whose type is `"wasm"` are decrypted in place;
other events are left alone. -/
def decryptEvent (st : EnigmaUtils) (ioPub nonce : Bytes) (e : Event) : Event :=
  if e.type = "wasm" then
    { e with attributes := e.attributes.map (decryptAttr st ioPub nonce) }
  else e

/-- `RestClient.decryptLogs`. -/
def decryptLogs (st : EnigmaUtils) (ioPub : Bytes) (logs : List Log) (nonce : Bytes) :
    List Log :=
  logs.map fun l => { l with events := l.events.map (decryptEvent st ioPub nonce) }

/-- `RestClient.decryptDataField`:
`fromBase64(fromUtf8(decrypt(fromHex(dataField), nonce)))`, every step
fallible and failures thrown to the caller. -/
def decryptDataField (st : EnigmaUtils) (ioPub : Bytes) (dataField : String) (nonce : Bytes) :
    Except String Bytes :=
  match fromHex dataField with
  | none => .error "invalid hex in data field"
  | some wasmOutputDataCipherBz =>
    match st.decrypt ioPub wasmOutputDataCipherBz nonce with
    | .error e => .error e
    | .ok pt =>
      match fromUtf8 pt with
      | none => .error "invalid utf8 in data field"
      | some s =>
        match fromBase64 s with
        | none => .error "invalid base64 in data field"
        | some d => .ok d

/-- The `raw_log` error decryption of `decryptTxsResponse`: when the
execute error regex matches, base64-decode the capture, decrypt it and
substitute the plaintext for the capture; failures of those steps are
thrown. -/
def decryptRawLog (st : EnigmaUtils) (ioPub nonce : Bytes) (raw : String) :
    Except String String :=
  match findCapture txErrHead txErrTail raw.data with
  | none => .ok raw
  | some cap =>
    let errorCipherB64 : String := ⟨cap⟩
    match fromBase64 errorCipherB64 with
    | none => .error "invalid base64 in raw_log"
    | some errorCipherBz =>
      match st.decrypt ioPub errorCipherBz nonce with
      | .error e => .error e
      | .ok errorPlainBz =>
        match fromUtf8 errorPlainBz with
        | none => .error "invalid utf8 in raw_log"
        | some plain => .ok (replaceFirst raw errorCipherB64 plain)

/-! ## Historical transaction decryption (`RestClient.decryptTxsResponse`) -/

/-- A transaction message of a tx-search result, discriminated by its
JavaScript `type` string.  Only the fields touched by
`decryptTxsResponse` are structured; everything else is carried opaquely
so that "returned unchanged" is expressible. -/
inductive TxMsg where
  | execute (contract : String) (msg : String) (sentFunds : List (String × String))
  | instantiate (codeId : String) (initMsg : String) (initFunds : List (String × String))
  | other (msgType : String) (value : String)
deriving DecidableEq

/-- The `data` field of a tx-search result: a hex string on the wire,
overwritten in place with decrypted bytes by `decryptTxsResponse`. -/
inductive DataField where
  | wire (s : String)
  | decoded (b : Bytes)
deriving DecidableEq

/-- A tx-search result (`TxsResponse`), restricted to the fields read or
written by `decryptTxsResponse`. -/
structure TxsResponse where
  msgs : List TxMsg
  data : DataField
  logs : Option (List Log)
  raw_log : String
deriving DecidableEq

/-- The branch of `decryptTxsResponse` taken once the single message's
envelope has been base64-decoded to `env`: compare `env[32..64]` against
the client's own public key (the source compares the base64 encodings);
on a match recover the nonce from `env[0..32]` and decrypt the input
message, the data field, the wasm logs and the `raw_log` error; on a
mismatch return the response untouched. -/
def decryptTxsPayload (st : EnigmaUtils) (ioPub : Bytes) (tx : TxsResponse)
    (env : Bytes) (setMsg : String → List TxMsg) : Except String TxsResponse :=
  let inputMsgPubkey := (env.drop 32).take 32
  if toBase64 st.pubkey = toBase64 inputMsgPubkey then
    let nonce := env.take 32
    match st.decrypt ioPub (env.drop 64) nonce with
    | .error e => .error e
    | .ok ptBytes =>
      match fromUtf8 ptBytes with
      | none => .error "invalid utf8 in tx message"
      | some inputMsg =>
        match tx.data with
        | .decoded _ => .error "data field is not a hex string"
        | .wire dataStr =>
          match decryptDataField st ioPub dataStr nonce with
          | .error e => .error e
          | .ok dataBytes =>
            let logs2 := tx.logs.map fun ls => decryptLogs st ioPub ls nonce
            match decryptRawLog st ioPub nonce tx.raw_log with
            | .error e => .error e
            | .ok raw2 =>
              .ok { msgs := setMsg inputMsg, data := .decoded dataBytes,
                    logs := logs2, raw_log := raw2 }
  else .ok tx

/-- `RestClient.decryptTxsResponse`: only responses with exactly one
message of type `wasm/MsgExecuteContract` or
`wasm/MsgInstantiateContract` are touched; the encrypted field is
base64-decoded (a failure there is thrown) and handed to
`decryptTxsPayload`. -/
def decryptTxsResponse (st : EnigmaUtils) (ioPub : Bytes) (tx : TxsResponse) :
    Except String TxsResponse :=
  match tx.msgs with
  | [.execute c m funds] =>
    match fromBase64 m with
    | none => .error "invalid base64 in msg"
    | some env => decryptTxsPayload st ioPub tx env fun pt => [.execute c pt funds]
  | [.instantiate ci im funds] =>
    match fromBase64 im with
    | none => .error "invalid base64 in init_msg"
    | some env => decryptTxsPayload st ioPub tx env fun pt => [.instantiate ci pt funds]
  | _ => .ok tx

/-! ## The code-hash cache (`RestClient.codeHashCache`)

The source keeps one JavaScript `Map` whose keys are the numeric code
ids passed to `getCodeHashByCodeId` and the contract-address strings
passed to `getCodeHashByContractAddr`.  `Map` uses SameValueZero key
equality, under which a number key and a string key are always distinct;
the embedding records that by tagging the two key kinds. -/

/-- A key of the code-hash cache: a JavaScript number (code id) or a
JavaScript string (contract address). -/
inductive CacheKey where
  | codeId (id : Nat)
  | contractAddr (addr : String)
deriving DecidableEq

/-- The code-hash cache contents. -/
abbrev CodeHashCache := List (CacheKey × String)

/-- `Map.get`: the most recent binding of the key. -/
def cacheGet (cache : CodeHashCache) (k : CacheKey) : Option String :=
  (cache.find? fun p => p.1 = k).map (·.2)

/-- `Map.set`, modelled observationally: the new binding shadows any
older binding of the same key. -/
def cacheSet (cache : CodeHashCache) (k : CacheKey) (v : String) : CodeHashCache :=
  (k, v) :: cache

/-- `RestClient.getCodeHashByCodeId`: serve from the cache, else use the
server's response (`responseData.result`, passed as `resp`) and cache it
under the numeric id. -/
def getCodeHashByCodeId (cache : CodeHashCache) (id : Nat) (resp : String) :
    String × CodeHashCache :=
  match cacheGet cache (.codeId id) with
  | some h => (h, cache)
  | none => (resp, cacheSet cache (.codeId id) resp)

/-- `RestClient.getCodeHashByContractAddr`: serve from the cache, else
use the server's response and cache it under the address string. -/
def getCodeHashByContractAddr (cache : CodeHashCache) (addr : String) (resp : String) :
    String × CodeHashCache :=
  match cacheGet cache (.contractAddr addr) with
  | some h => (h, cache)
  | none => (resp, cacheSet cache (.contractAddr addr) resp)

/-- One cache-touching call together with the server response it would
receive on a miss. -/
inductive CacheOp where
  | byCodeId (id : Nat) (resp : String)
  | byContractAddr (addr : String) (resp : String)

/-- Run an arbitrary interleaving of the two lookup operations from a
given cache state. -/
def runCacheOps (cache : CodeHashCache) : List CacheOp → CodeHashCache
  | [] => cache
  | .byCodeId id resp :: rest => runCacheOps (getCodeHashByCodeId cache id resp).2 rest
  | .byContractAddr a resp :: rest =>
    runCacheOps (getCodeHashByContractAddr cache a resp).2 rest

/-! ## Smart queries (`RestClient.queryContractSmart`) -/

/-- The `RestClient` state used by the smart-query path. -/
structure RestClient where
  enigmautils : EnigmaUtils
  codeHashCache : CodeHashCache
deriving DecidableEq

/-- The three shapes of server outcome a smart query can see: an HTTP
error thrown by `get` (its message, as produced by `parseAxiosError`), a
wasm-level error object, or a success carrying `result.smart`. -/
inductive SmartQueryResponse where
  | httpError (message : String)
  | wasmErr (error : String)
  | success (smart : String)

/-- The wrapper message thrown when decrypting an embedded error cipher
itself fails. -/
def wrapDecryptionError (orig decryptionError : String) : String :=
  "Failed to decrypt the following error message: " ++ orig ++
    ". Decryption error of the error message: " ++ decryptionError

/-- `JSON.stringify` applied to a `Uint8Array`, as done on decrypted
wasm error bytes: an object with decimal indices as keys. -/
def jsonStringifyBytes (bs : Bytes) : String :=
  "\x7b" ++ String.intercalate ","
    (bs.enum.map fun p => quoteStr (toString p.1) ++ ":" ++ toString p.2) ++ "\x7d"

/-- `RestClient.queryContractSmart`: resolve the code hash through the
cache, seal the query, recover the nonce from the envelope, and handle
the three response shapes.  On success the result is
`JSON.parse(fromUtf8(fromBase64(fromUtf8(decrypt(fromBase64(result.smart), nonce)))))`;
an HTTP error carrying the smart-query error regex has its capture
decrypted in place (any failure of that attempt, including a regex
mismatch, being wrapped by `wrapDecryptionError`); a wasm error object
has `error` base64-decoded and decrypted, the bytes being thrown
stringified. -/
def queryContractSmart (rc : RestClient) (ioPub : Bytes) (addr : String)
    (query : Json) (nonceEntropy : Bytes) (hashResp : String)
    (resp : SmartQueryResponse) : Except String Json :=
  let contractCodeHash := (getCodeHashByContractAddr rc.codeHashCache addr hashResp).1
  let encrypted := rc.enigmautils.encrypt ioPub nonceEntropy contractCodeHash query
  let nonce := encrypted.take 32
  let _encoded := toHex (toUtf8 (toBase64 encrypted))
  match resp with
  | .httpError message =>
    match findCapture txErrHead queryErrTail message.data with
    | none => .error (wrapDecryptionError message message)
    | some cap =>
      let errorCipherB64 : String := ⟨cap⟩
      match fromBase64 errorCipherB64 with
      | none => .error (wrapDecryptionError message "invalid base64")
      | some errorCipherBz =>
        match rc.enigmautils.decrypt ioPub errorCipherBz nonce with
        | .error e => .error (wrapDecryptionError message e)
        | .ok errorPlainBz =>
          match fromUtf8 errorPlainBz with
          | none => .error (wrapDecryptionError message "invalid utf8")
          | some plain => .error (replaceFirst message errorCipherB64 plain)
  | .wasmErr err =>
    match fromBase64 err with
    | none => .error "invalid base64 in wasm error"
    | some bz =>
      match rc.enigmautils.decrypt ioPub bz nonce with
      | .error e => .error e
      | .ok pt => .error (jsonStringifyBytes pt)
  | .success smart =>
    match fromBase64 smart with
    | none => .error "invalid base64 in result.smart"
    | some bz =>
      match rc.enigmautils.decrypt ioPub bz nonce with
      | .error e => .error e
      | .ok pt =>
        match fromUtf8 pt with
        | none => .error "invalid utf8 in smart query result"
        | some s1 =>
          match fromBase64 s1 with
          | none => .error "invalid base64 in smart query result"
          | some bz2 =>
            match fromUtf8 bz2 with
            | none => .error "invalid utf8 in smart query result"
            | some s2 =>
              match parseJson s2 with
              | some j => .ok j
              | none => .error "invalid json in smart query result"

/-- The smart-query success decoding pipeline exactly as the spec words
it — `fromUtf8 ∘ fromBase64 ∘ fromUtf8 ∘ decrypt ∘ fromBase64` of
`result.smart`, then `JSON.parse` — stated as a composition of the
codec models, to be compared against `queryContractSmart`. -/
def smartQueryPipeline (st : EnigmaUtils) (ioPub nonce : Bytes) (smart : String) :
    Option Json :=
  (((((fromBase64 smart).bind
      fun bz => (st.decrypt ioPub bz nonce).toOption).bind
      fromUtf8).bind
      fromBase64).bind
      fromUtf8).bind
      parseJson

/-! ## Fee table (signingcosmwasmclient) -/

/-- A Cosmos SDK fee entry: coins plus a gas limit. -/
structure StdFee where
  amount : List (String × String)
  gas : String
deriving DecidableEq

/-- `singleAmount`: one coin, the amount rendered in decimal. -/
def singleAmount (amount : Nat) (denom : String) : List (String × String) :=
  [(toString amount, denom)]

/-- The complete fee table of a signing client. -/
structure FeeTable where
  upload : StdFee
  init : StdFee
  exec : StdFee
  send : StdFee
deriving DecidableEq

/-- `Partial<FeeTable>`: the caller's overrides, each operation
optional. -/
structure PartialFeeTable where
  upload : Option StdFee
  init : Option StdFee
  exec : Option StdFee
  send : Option StdFee

/-- The built-in `defaultFees` table. -/
def defaultFees : FeeTable :=
  { upload := { amount := singleAmount 25000 "ucosm", gas := "1000000" },
    init := { amount := singleAmount 12500 "ucosm", gas := "500000" },
    exec := { amount := singleAmount 5000 "ucosm", gas := "200000" },
    send := { amount := singleAmount 2000 "ucosm", gas := "80000" } }

/-- The fee table computed by the `SigningCosmWasmClient` constructor:
`Object.assign(Object.assign(..., defaultFees), customFees || ...)` — a
key present in `customFees` overrides the default, every other key keeps
its default. -/
def signingFeeTable (customFees : Option PartialFeeTable) : FeeTable :=
  match customFees with
  | none => defaultFees
  | some c =>
    { upload := c.upload.getD defaultFees.upload,
      init := c.init.getD defaultFees.init,
      exec := c.exec.getD defaultFees.exec,
      send := c.send.getD defaultFees.send }

/-! ## Log parsing (src/build/logs.js)

The parsers receive untyped JSON from the server; JavaScript property
access on a parsed document is modelled by field lookup on `Json.obj`. -/

/-- JavaScript property read on a parsed JSON object. -/
def jsonField (fields : List (String × Json)) (k : String) : Option Json :=
  (fields.find? fun p => p.1 = k).map (·.2)

/-- `parseAttribute`: the input must be a non-null object whose `key` is
a non-empty string and whose `value` is a string or unset (an unset or
empty value becomes the empty string).  A JavaScript array passes the
non-null-object check but has no `key` property. -/
def parseAttribute (input : Json) : Except String Attribute :=
  match input with
  | .obj fields =>
    match jsonField fields "key" with
    | some (.str k) =>
      if k = "" then .error "Attribute's key must be a non-empty string"
      else
        match jsonField fields "value" with
        | some (.str v) => .ok { key := k, value := v }
        | none => .ok { key := k, value := "" }
        | some _ => .error "Attribute's value must be a string or unset"
    | _ => .error "Attribute's key must be a non-empty string"
  | .arr _ => .error "Attribute's key must be a non-empty string"
  | _ => .error "Attribute must be a non-null object"

/-- `parseEvent`: non-null object, non-empty `type` string, `attributes`
an array parsed element-wise. -/
def parseEvent (input : Json) : Except String Event :=
  match input with
  | .obj fields =>
    match jsonField fields "type" with
    | some (.str t) =>
      if t = "" then .error "Event type must be a non-empty string"
      else
        match jsonField fields "attributes" with
        | some (.arr items) =>
          match items.mapM parseAttribute with
          | .error e => .error e
          | .ok attrs => .ok { type := t, attributes := attrs }
        | _ => .error "Event's attributes must be an array"
    | _ => .error "Event type must be a non-empty string"
  | .arr _ => .error "Event type must be a non-empty string"
  | _ => .error "Event must be a non-null object"

/-- `parseLog`: non-null object with a numeric `msg_index`, a string
`log` and an `events` array parsed element-wise. -/
def parseLog (input : Json) : Except String Log :=
  match input with
  | .obj fields =>
    match jsonField fields "msg_index" with
    | some (.num n) =>
      match jsonField fields "log" with
      | some (.str s) =>
        match jsonField fields "events" with
        | some (.arr evs) =>
          match evs.mapM parseEvent with
          | .error e => .error e
          | .ok events => .ok { msg_index := n, log := s, events := events }
        | _ => .error "Log's events must be an array"
      | _ => .error "Log's log must be a string"
    | _ => .error "Log's msg_index must be a number"
  | .arr _ => .error "Log's msg_index must be a number"
  | _ => .error "Log must be a non-null object"

/-- `parseLogs`: the input must be an array. -/
def parseLogs (input : Json) : Except String (List Log) :=
  match input with
  | .arr items => items.mapM parseLog
  | _ => .error "Logs must be an array"

/-! ## Transaction broadcast (`CosmWasmClient.postTx` over
`RestClient.postTx`, src/build/cosmwasmclient.js) -/

/-- One character class of the txhash regex `[0-9A-F]`. -/
def isHexUp (c : Char) : Bool :=
  c.isDigit || (decide ('A' ≤ c) && decide (c ≤ 'F'))

/-- The txhash regex `^([0-9A-F][0-9A-F])+$`, matched structurally two
characters at a time. -/
def hexPairsMatcher : List Char → Bool
  | [] => false
  | [_] => false
  | a :: b :: rest => isHexUp a && isHexUp b && (rest.isEmpty || hexPairsMatcher rest)

/-- JavaScript truthiness of the numeric `code` field (absent or `0` is
falsy). -/
def codeTruthy : Option Int → Bool
  | none => false
  | some c => decide (c ≠ 0)

/-- JavaScript truthiness of the `logs` field. -/
def logsTruthy : Option Json → Bool
  | none => false
  | some j => jsTruthy j

/-- The broadcast response as delivered by the server: `txhash` plus the
optional `code`, `raw_log`, `logs` and `data` fields. -/
structure PostTxsResponse where
  txhash : String
  code : Option Int
  raw_log : Option String
  logs : Option Json
  data : Option String

/-- The value `CosmWasmClient.postTx` resolves with. -/
structure PostTxResult where
  logs : List Log
  rawLog : String
  transactionHash : String
  data : String
deriving DecidableEq

/-- `CosmWasmClient.postTx` composed with `RestClient.postTx`: the REST
layer rejects a response without a `txhash`; the client layer rejects a
txhash that is not non-empty upper-case hex pairs, rejects a truthy
`code`, parses `logs` when truthy (else `[]`), and defaults `raw_log`
and `data` to the empty string. -/
def postTx (resp : PostTxsResponse) : Except String PostTxResult :=
  if resp.txhash = "" then .error "Unexpected response data format"
  else if hexPairsMatcher resp.txhash.data then
    if codeTruthy resp.code then
      .error ("Error when posting tx " ++ resp.txhash)
    else
      match (if logsTruthy resp.logs then parseLogs (resp.logs.getD .null) else .ok []) with
      | .error e => .error e
      | .ok logs =>
        .ok { logs := logs, rawLog := resp.raw_log.getD "",
              transactionHash := resp.txhash, data := resp.data.getD "" }
  else .error "Received ill-formatted txhash. Must be non-empty upper-case hex"

/-! ## Specification-side comparison definitions -/

/-- The per-attribute-field decryption pipeline as the spec words it:
base64-decode, decrypt, UTF-8 decode, each step fallible — compared
against `decryptAttrField`, whose failure handling must fall back to the
original field. -/
def attrFieldSpec (st : EnigmaUtils) (ioPub nonce : Bytes) (field : String) :
    Option String :=
  ((fromBase64 field).bind fun bz => (st.decrypt ioPub bz nonce).toOption).bind fromUtf8

/-! ## Concrete evaluation data

Fixed clients, nonces and responses used to evaluate the theorems on
closed inputs. -/

/-- A fixed 32-byte seed. -/
def wSeed : Bytes := List.replicate 32 1

/-- The client the `EnigmaUtils` constructor builds from `wSeed`. -/
def wClient : EnigmaUtils :=
  { apiUrl := "api", seed := wSeed, privkey := clampScalar wSeed,
    pubkey := scalarMultBase (clampScalar wSeed), consensusIoPubKey := [] }

/-- A fixed 32-byte consensus io pubkey. -/
def wIoPub : Bytes := List.replicate 32 3

/-- A fixed 32-byte nonce. -/
def wNonce : Bytes := List.replicate 32 4

/-- `wClient` after caching a 31-byte server value. -/
def wClientBad : EnigmaUtils := { wClient with consensusIoPubKey := List.replicate 31 7 }

/-- `wClient` with a correctly populated 32-byte cache. -/
def wClientCached : EnigmaUtils := { wClient with consensusIoPubKey := List.replicate 32 5 }

/-- A rest client around `wClient` with an empty code-hash cache. -/
def wRestClient : RestClient := { enigmautils := wClient, codeHashCache := [] }

/-- The tx encryption key `wClient` derives for `wNonce`. -/
def wSmartKey : Bytes := getTxEncryptionKey wClient.privkey wIoPub wNonce

/-- A well-formed `result.smart` payload: the double-encoded sealed JSON
document `null`. -/
def wSmart : String := toBase64 (sivSeal wSmartKey (toUtf8 (toBase64 (toUtf8 "null"))))

/-- A 64-byte envelope whose bytes `[32..64]` are not `wClient`'s
public key. -/
def wEnv : Bytes := List.replicate 64 9

/-- A historical execute transaction carrying `wEnv` for another party. -/
def wTx : TxsResponse :=
  { msgs := [.execute "contract" (toBase64 wEnv) []],
    data := .wire "", logs := none, raw_log := "" }

/-- A well-formed broadcast response. -/
def wPostResp : PostTxsResponse :=
  { txhash := "AB12", code := some 0, raw_log := none, logs := none, data := none }

/-- The result `postTx` produces for `wPostResp`. -/
def wPostResult : PostTxResult :=
  { logs := [], rawLog := "", transactionHash := "AB12", data := "" }

/-- A custom fee table overriding only the upload fee. -/
def wCustomFees : PartialFeeTable :=
  { upload := some { amount := [("1", "x")], gas := "9" },
    init := none, exec := none, send := none }

/-- Where a cache entry's value may come from: the trace operation of
the same key kind and key. -/
def cacheEntrySource (ops : List CacheOp) (k : CacheKey) (v : String) : Prop :=
  match k with
  | .codeId id => CacheOp.byCodeId id v ∈ ops
  | .contractAddr a => CacheOp.byContractAddr a v ∈ ops

/-! # Theorems

Shared helper lemmas first, then one theorem per claim. -/

/-- Decoding one encoded byte consumes it and adds it to the output. -/
theorem decodeWithAux_natCode (c stop : Char) (h : c ≠ stop) (n : Nat) :
    ∀ (rest : List Char) (acc : Nat),
      decodeWithAux c stop (natCode c stop n ++ rest) acc =
        (decodeWithAux c stop rest 0).map ((acc + n) :: ·) := by
  induction n with
  | zero =>
    intro rest acc
    simp [natCode, decodeWithAux, Ne.symm h]
  | succ n ih =>
    intro rest acc
    have e1 : natCode c stop (n + 1) ++ rest = c :: (natCode c stop n ++ rest) := by
      simp [natCode, List.replicate_succ]
    rw [e1]
    simp only [decodeWithAux, if_pos rfl]
    rw [ih rest (acc + 1)]
    have e2 : acc + 1 + n = acc + (n + 1) := by omega
    rw [e2]
    simp

/-- The generic codec decodes its own output. -/
theorem decodeWith_encodeWith (c stop : Char) (h : c ≠ stop) (bs : Bytes) :
    decodeWith c stop (encodeWith c stop bs) = some bs := by
  induction bs with
  | nil => rfl
  | cons b bs ih =>
    have e1 : (encodeWith c stop (b :: bs)).data =
        natCode c stop b ++ (encodeWith c stop bs).data := by
      simp [encodeWith]
    unfold decodeWith at ih ⊢
    rw [e1, decodeWithAux_natCode c stop h b _ 0, ih]
    simp

/-- base64 round trip. -/
theorem fromBase64_toBase64 (bs : Bytes) : fromBase64 (toBase64 bs) = some bs :=
  decodeWith_encodeWith 'A' '=' (by decide) bs

/-- The base64 model is injective. -/
theorem toBase64_inj {a b : Bytes} (h : toBase64 a = toBase64 b) : a = b := by
  have ha := fromBase64_toBase64 a
  rw [h, fromBase64_toBase64 b] at ha
  exact (Option.some.inj ha).symm

/-- hex round trip. -/
theorem fromHex_toHex (bs : Bytes) : fromHex (toHex bs) = some bs :=
  decodeWith_encodeWith 'x' ';' (by decide) bs

/-- UTF-8 round trip. -/
theorem fromUtf8_toUtf8 (s : String) : fromUtf8 (toUtf8 s) = some s := by
  unfold fromUtf8 toUtf8
  rw [dif_pos]
  · congr 1
    cases s with
    | mk data =>
      simp only [List.map_map]
      show String.mk (data.map fun c => Char.ofNat c.toNat) = String.mk data
      congr 1
      calc data.map (fun c => Char.ofNat c.toNat) = data.map id := by
            apply List.map_congr_left
            intro c _
            exact Char.ofNat_toNat c
        _ = data := List.map_id data
  · intro n hn
    obtain ⟨ch, _, rfl⟩ := List.mem_map.1 hn
    exact ch.valid

/-- The SIV model opens what it seals. -/
theorem sivOpen_sivSeal (key pt : Bytes) : sivOpen key (sivSeal key pt) = some pt := by
  have hlen : (sivTag key pt).length = 16 := by simp [sivTag]
  unfold sivOpen sivSeal
  rw [List.take_left' hlen, List.drop_left' hlen]
  simp [hlen]

/-- The SIV model's ciphertext carries a 16-byte tag. -/
theorem sivSeal_length (key pt : Bytes) : (sivSeal key pt).length = 16 + pt.length := by
  simp [sivSeal, sivTag]
  omega

/-- The keypair model always produces 32-byte key material. -/
theorem generateKeyPair_lengths (seed : Bytes) (kp : Keypair)
    (h : generateKeyPair seed = .ok kp) :
    kp.privkey.length = 32 ∧ kp.pubkey.length = 32 := by
  unfold generateKeyPair at h
  by_cases h32 : seed.length = 32
  · rw [if_pos h32] at h
    cases h
    constructor
    · simp [clampScalar, h32]
    · simp [scalarMultBase]
  · rw [if_neg h32] at h
    cases h

/-- Constructed clients have a 32-byte public key and an empty
consensus-key cache. -/
theorem create_facts (apiUrl : String) (seed? : Option Bytes) (entropy : Bytes)
    (st : EnigmaUtils) (h : EnigmaUtils.create apiUrl seed? entropy = .ok st) :
    st.pubkey.length = 32 ∧ st.privkey.length = 32 ∧ st.consensusIoPubKey = [] := by
  unfold EnigmaUtils.create at h
  revert h
  cases hgen : generateKeyPair (match seed? with
    | none => EnigmaUtils.GenerateNewSeed entropy
    | some s => s) with
  | error e => intro h; simp [hgen] at h
  | ok kp =>
    intro h
    simp only [hgen] at h
    obtain ⟨h1, h2⟩ := generateKeyPair_lengths _ _ hgen
    cases h
    exact ⟨h2, h1, rfl⟩

/-- C1: Seal/open round trip — for every client the constructor builds,
every code hash string `ch`, every JSON message `j` and every 32-byte
nonce, decrypting the ciphertext part (bytes `[64..]`) of the `encrypt`
output with the nonce taken from its first 32 bytes returns exactly
`utf8(ch ++ canonical JSON of j)`. -/
theorem C1_seal_open_roundtrip (apiUrl : String) (seed? : Option Bytes) (entropy : Bytes)
    (st : EnigmaUtils) (ioPub nonce : Bytes) (ch : String) (j : Json)
    (hst : EnigmaUtils.create apiUrl seed? entropy = .ok st)
    (hn : nonce.length = 32) :
    st.decrypt ioPub ((st.encrypt ioPub nonce ch j).drop 64)
        ((st.encrypt ioPub nonce ch j).take 32) =
      .ok (toUtf8 (ch ++ j.stringify)) := by
  obtain ⟨hpub, -, -⟩ := create_facts _ _ _ _ hst
  have hTake : (st.encrypt ioPub nonce ch j).take 32 = nonce := by
    unfold EnigmaUtils.encrypt
    rw [List.append_assoc]
    exact List.take_left' hn
  have hDrop : (st.encrypt ioPub nonce ch j).drop 64 =
      sivSeal (getTxEncryptionKey st.privkey ioPub nonce) (toUtf8 (ch ++ j.stringify)) := by
    unfold EnigmaUtils.encrypt
    have hlen : (nonce ++ st.pubkey).length = 64 := by simp [hn, hpub]
    exact List.drop_left' hlen
  rw [hTake, hDrop]
  unfold EnigmaUtils.decrypt
  have hne : ¬ (sivSeal (getTxEncryptionKey st.privkey ioPub nonce)
      (toUtf8 (ch ++ j.stringify))).length = 0 := by
    rw [sivSeal_length]
    omega
  simp [hne, sivOpen_sivSeal]

/-- C1 witness: the round trip evaluated on a concrete client, nonce,
code hash and message. -/
theorem C1_seal_open_roundtrip_witness :
    wClient.decrypt wIoPub ((wClient.encrypt wIoPub wNonce "cafe" Json.null).drop 64)
        ((wClient.encrypt wIoPub wNonce "cafe" Json.null).take 32) =
      .ok (toUtf8 ("cafe" ++ Json.null.stringify)) :=
  C1_seal_open_roundtrip "api" (some wSeed) [] wClient wIoPub wNonce "cafe" Json.null
    (by rfl) (by rfl)

/-- C2: Seed length precondition — both keypair-derivation entry points
(the constructor with a caller-supplied seed, and
`GenerateNewKeyPairFromSeed`) fail exactly on seeds whose length is not
32 bytes. -/
theorem C2_seed_length_validation (seed : Bytes) (apiUrl : String) (entropy : Bytes) :
    ((∃ kp, EnigmaUtils.GenerateNewKeyPairFromSeed seed = .ok kp) ↔ seed.length = 32) ∧
    ((∃ st, EnigmaUtils.create apiUrl (some seed) entropy = .ok st) ↔ seed.length = 32) := by
  constructor
  · constructor
    · rintro ⟨kp, hkp⟩
      unfold EnigmaUtils.GenerateNewKeyPairFromSeed generateKeyPair at hkp
      by_cases h32 : seed.length = 32
      · exact h32
      · rw [if_neg h32] at hkp
        cases hkp
    · intro h32
      refine ⟨{ privkey := clampScalar seed, pubkey := scalarMultBase (clampScalar seed) }, ?_⟩
      unfold EnigmaUtils.GenerateNewKeyPairFromSeed generateKeyPair
      rw [if_pos h32]
  · constructor
    · rintro ⟨st, hst⟩
      unfold EnigmaUtils.create at hst
      by_cases h32 : seed.length = 32
      · exact h32
      · simp [generateKeyPair, h32] at hst
    · intro h32
      refine ⟨{ apiUrl := apiUrl, seed := seed, privkey := clampScalar seed,
                pubkey := scalarMultBase (clampScalar seed), consensusIoPubKey := [] }, ?_⟩
      simp [EnigmaUtils.create, generateKeyPair, h32]

/-- C2 witness: a 32-byte seed is accepted. -/
theorem C2_seed_length_validation_witness :
    (∃ kp, EnigmaUtils.GenerateNewKeyPairFromSeed wSeed = .ok kp) ∧ wSeed.length = 32 :=
  ⟨(C2_seed_length_validation wSeed "api" []).1.mpr (by rfl), by rfl⟩

/-- C6: Envelope layout — every `encrypt` output is
`nonce(32) ++ self.pubkey(32) ++ AES-SIV ciphertext`; in particular its
bytes `[32..64]` are the client's own public key and its first 32 bytes
are the nonce. -/
theorem C6_envelope_layout (apiUrl : String) (seed? : Option Bytes) (entropy : Bytes)
    (st : EnigmaUtils) (ioPub nonce : Bytes) (ch : String) (j : Json)
    (hst : EnigmaUtils.create apiUrl seed? entropy = .ok st)
    (hn : nonce.length = 32) :
    st.encrypt ioPub nonce ch j =
      nonce ++ st.pubkey ++
        sivSeal (getTxEncryptionKey st.privkey ioPub nonce) (toUtf8 (ch ++ j.stringify)) ∧
    ((st.encrypt ioPub nonce ch j).drop 32).take 32 = st.pubkey ∧
    (st.encrypt ioPub nonce ch j).take 32 = nonce := by
  obtain ⟨hpub, -, -⟩ := create_facts _ _ _ _ hst
  refine ⟨rfl, ?_, ?_⟩
  · unfold EnigmaUtils.encrypt
    rw [List.append_assoc, List.drop_left' hn, List.take_left' hpub]
  · unfold EnigmaUtils.encrypt
    rw [List.append_assoc]
    exact List.take_left' hn

/-- C6 witness: the envelope layout evaluated on a concrete client. -/
theorem C6_envelope_layout_witness :
    wClient.encrypt wIoPub wNonce "cafe" Json.null =
      wNonce ++ wClient.pubkey ++
        sivSeal (getTxEncryptionKey wClient.privkey wIoPub wNonce)
          (toUtf8 ("cafe" ++ Json.null.stringify)) ∧
    ((wClient.encrypt wIoPub wNonce "cafe" Json.null).drop 32).take 32 = wClient.pubkey ∧
    (wClient.encrypt wIoPub wNonce "cafe" Json.null).take 32 = wNonce :=
  C6_envelope_layout "api" (some wSeed) [] wClient wIoPub wNonce "cafe" Json.null
    (by rfl) (by rfl)

set_option maxRecDepth 10000 in
/-- C3 counterexample: `getConsensusIoPubKey` performs no length-32
assertion — a fresh client given a server response whose decoded
`ioExchPubkey` has 31 bytes caches it and returns it, leaving the cache
field populated (non-empty) with length 31. -/
theorem C3_no_assert_counterexample :
    wClient.getConsensusIoPubKey (toBase64 (List.replicate 31 7)) =
      .ok (List.replicate 31 7, wClientBad) ∧
    wClientBad.consensusIoPubKey ≠ [] ∧
    wClientBad.consensusIoPubKey.length = 31 := by
  refine ⟨?_, by decide, by decide⟩
  rfl

/-- C3 (amended): `getConsensusIoPubKey` base64-decodes
`result.ioExchPubkey` and caches it without any length assertion, so a
non-32-byte server value is cached and returned as-is; the cache field
is treated as populated only when its length is exactly 32, hence every
call served from the cache returns the cached 32-byte value with the
state unchanged. -/
theorem C3_cache_population (st : EnigmaUtils) (resp : String) :
    (st.consensusIoPubKey.length = 32 →
      st.getConsensusIoPubKey resp = .ok (st.consensusIoPubKey, st)) ∧
    (∀ bs, st.consensusIoPubKey.length ≠ 32 → fromBase64 resp = some bs →
      st.getConsensusIoPubKey resp = .ok (bs, { st with consensusIoPubKey := bs })) := by
  constructor
  · intro h
    unfold EnigmaUtils.getConsensusIoPubKey
    rw [if_pos h]
  · intro bs h hb
    unfold EnigmaUtils.getConsensusIoPubKey
    rw [if_neg h, hb]

/-- C3 witness: a populated 32-byte cache is served unchanged. -/
theorem C3_cache_population_witness :
    wClientCached.getConsensusIoPubKey "resp" =
      .ok (wClientCached.consensusIoPubKey, wClientCached) :=
  (C3_cache_population wClientCached "resp").1 (by rfl)

/-- C4: Not-my-tx frame property — a historical transaction whose single
wasm execute/instantiate message carries an envelope whose bytes
`[32..64]` differ from the client's own public key is returned by
`decryptTxsResponse` completely unchanged, with no error. -/
theorem C4_not_my_tx_unchanged (st : EnigmaUtils) (ioPub : Bytes) (tx : TxsResponse)
    (enc : String) (env : Bytes)
    (hmsg : (∃ c funds, tx.msgs = [.execute c enc funds]) ∨
            (∃ ci funds, tx.msgs = [.instantiate ci enc funds]))
    (henv : fromBase64 enc = some env)
    (hpk : (env.drop 32).take 32 ≠ st.pubkey) :
    decryptTxsResponse st ioPub tx = .ok tx := by
  have hguard : ¬ toBase64 st.pubkey = toBase64 ((env.drop 32).take 32) := by
    intro h
    exact hpk (toBase64_inj h).symm
  rcases hmsg with ⟨c, funds, hm⟩ | ⟨ci, funds, hm⟩ <;>
  · unfold decryptTxsResponse
    rw [hm]
    simp only [henv]
    unfold decryptTxsPayload
    rw [if_neg hguard]

/-- C4 witness: a concrete foreign envelope is passed through. -/
theorem C4_not_my_tx_unchanged_witness :
    decryptTxsResponse wClient wIoPub wTx = .ok wTx :=
  C4_not_my_tx_unchanged wClient wIoPub wTx (toBase64 wEnv) wEnv
    (Or.inl ⟨"contract", [], rfl⟩) (fromBase64_toBase64 wEnv) (by decide)

/-- C5: Best-effort per-attribute log decryption — `decryptLogs` visits
every attribute of every `"wasm"` event, independently replaces each of
`key` and `value` by the decrypted UTF-8 plaintext when the
base64-decode/decrypt/UTF-8 pipeline succeeds and leaves the field
unchanged when any step fails, never aborting sibling attributes or the
other field; events of any other type are untouched. -/
theorem C5_decrypt_logs_best_effort (st : EnigmaUtils) (ioPub : Bytes)
    (logs : List Log) (nonce : Bytes) :
    decryptLogs st ioPub logs nonce =
      logs.map (fun l =>
        { l with events := l.events.map fun e =>
            if e.type = "wasm" then
              { e with attributes := e.attributes.map fun a =>
                  { key := (attrFieldSpec st ioPub nonce a.key).getD a.key,
                    value := (attrFieldSpec st ioPub nonce a.value).getD a.value } }
            else e }) := by
  have hfield : ∀ f, decryptAttrField st ioPub nonce f =
      (attrFieldSpec st ioPub nonce f).getD f := by
    intro f
    unfold decryptAttrField attrFieldSpec
    cases h1 : fromBase64 f with
    | none => rfl
    | some bz =>
      cases h2 : st.decrypt ioPub bz nonce with
      | error e => simp [h2, Except.toOption]
      | ok pt =>
        cases h3 : fromUtf8 pt with
        | none => simp [h2, h3, Except.toOption]
        | some s => simp [h2, h3, Except.toOption]
  unfold decryptLogs decryptEvent decryptAttr
  simp [hfield]

/-- A `getCodeHashByCodeId` call adds at most its own numeric-key
binding. -/
theorem mem_getCodeHashByCodeId_cache {cache : CodeHashCache} {id : Nat} {resp : String}
    {k : CacheKey} {v : String}
    (h : (k, v) ∈ (getCodeHashByCodeId cache id resp).2) :
    (k, v) ∈ cache ∨ (k = CacheKey.codeId id ∧ v = resp) := by
  unfold getCodeHashByCodeId at h
  cases hget : cacheGet cache (.codeId id) with
  | some s =>
    rw [hget] at h
    exact Or.inl h
  | none =>
    rw [hget] at h
    simp only [cacheSet] at h
    rcases List.mem_cons.1 h with heq | hm
    · right
      exact ⟨congrArg Prod.fst heq, congrArg Prod.snd heq⟩
    · exact Or.inl hm

/-- A `getCodeHashByContractAddr` call adds at most its own string-key
binding. -/
theorem mem_getCodeHashByContractAddr_cache {cache : CodeHashCache} {addr : String}
    {resp : String} {k : CacheKey} {v : String}
    (h : (k, v) ∈ (getCodeHashByContractAddr cache addr resp).2) :
    (k, v) ∈ cache ∨ (k = CacheKey.contractAddr addr ∧ v = resp) := by
  unfold getCodeHashByContractAddr at h
  cases hget : cacheGet cache (.contractAddr addr) with
  | some s =>
    rw [hget] at h
    exact Or.inl h
  | none =>
    rw [hget] at h
    simp only [cacheSet] at h
    rcases List.mem_cons.1 h with heq | hm
    · right
      exact ⟨congrArg Prod.fst heq, congrArg Prod.snd heq⟩
    · exact Or.inl hm

/-- Every binding in the cache after a trace either predates the trace
or originates from a trace operation keyed in the same namespace. -/
theorem runCacheOps_mem (ops : List CacheOp) :
    ∀ (cache : CodeHashCache) (k : CacheKey) (v : String),
      (k, v) ∈ runCacheOps cache ops →
      (k, v) ∈ cache ∨ cacheEntrySource ops k v := by
  induction ops with
  | nil =>
    intro cache k v h
    exact Or.inl h
  | cons op rest ih =>
    intro cache k v h
    cases op with
    | byCodeId id resp =>
      rcases ih _ _ _ h with hstep | hsrc
      · rcases mem_getCodeHashByCodeId_cache hstep with hc | ⟨hk, hv⟩
        · exact Or.inl hc
        · right
          subst hk
          subst hv
          exact List.mem_cons_self _ _
      · right
        cases k with
        | codeId i => exact List.mem_cons_of_mem _ hsrc
        | contractAddr a => exact List.mem_cons_of_mem _ hsrc
    | byContractAddr a resp =>
      rcases ih _ _ _ h with hstep | hsrc
      · rcases mem_getCodeHashByContractAddr_cache hstep with hc | ⟨hk, hv⟩
        · exact Or.inl hc
        · right
          subst hk
          subst hv
          exact List.mem_cons_self _ _
      · right
        cases k with
        | codeId i => exact List.mem_cons_of_mem _ hsrc
        | contractAddr a2 => exact List.mem_cons_of_mem _ hsrc

/-- A successful cache lookup comes from a stored binding of exactly
that key. -/
theorem cacheGet_mem {cache : CodeHashCache} {k : CacheKey} {h : String}
    (hget : cacheGet cache k = some h) : (k, h) ∈ cache := by
  unfold cacheGet at hget
  obtain ⟨p, hfind, hp2⟩ := Option.map_eq_some'.1 hget
  have hmem := List.mem_of_find?_eq_some hfind
  have hpa := @List.find?_some (CacheKey × String) (fun q => decide (q.1 = k)) p cache hfind
  have hkey : p.1 = k := of_decide_eq_true hpa
  have hpk : p = (k, h) := Prod.ext hkey hp2
  rw [← hpk]
  exact hmem

/-- C7: Code-hash cache namespace separation — over every interleaving
of the two lookups starting from the constructor's empty cache, a
by-code-id lookup only ever returns its own fresh server response or a
hash that some earlier by-code-id call cached under that same numeric
id, and a by-contract-address lookup only ever returns its own fresh
response or a hash that some earlier by-contract-address call cached
under that same address: hashes cached under the numeric-id namespace
are never returned by address lookups and vice versa. -/
theorem C7_code_hash_cache_namespaces (ops : List CacheOp) (id : Nat) (addr : String)
    (respId respAddr : String) :
    ((getCodeHashByCodeId (runCacheOps [] ops) id respId).1 = respId ∨
      ∃ r, CacheOp.byCodeId id r ∈ ops ∧
        (getCodeHashByCodeId (runCacheOps [] ops) id respId).1 = r) ∧
    ((getCodeHashByContractAddr (runCacheOps [] ops) addr respAddr).1 = respAddr ∨
      ∃ r, CacheOp.byContractAddr addr r ∈ ops ∧
        (getCodeHashByContractAddr (runCacheOps [] ops) addr respAddr).1 = r) := by
  constructor
  · unfold getCodeHashByCodeId
    cases hget : cacheGet (runCacheOps [] ops) (.codeId id) with
    | none => exact Or.inl rfl
    | some hsh =>
      right
      refine ⟨hsh, ?_, rfl⟩
      rcases runCacheOps_mem ops [] _ _ (cacheGet_mem hget) with hnil | hsrc
      · cases hnil
      · exact hsrc
  · unfold getCodeHashByContractAddr
    cases hget : cacheGet (runCacheOps [] ops) (.contractAddr addr) with
    | none => exact Or.inl rfl
    | some hsh =>
      right
      refine ⟨hsh, ?_, rfl⟩
      rcases runCacheOps_mem ops [] _ _ (cacheGet_mem hget) with hnil | hsrc
      · cases hnil
      · exact hsrc

/-- C8: Smart-query success decoding pipeline — on a successful
response, `queryContractSmart` returns a value exactly when the
composition base64-decode, AES-SIV decrypt with the query envelope's
first 32 bytes as nonce, UTF-8 decode, base64-decode, UTF-8 decode,
JSON-parse of `result.smart` produces it. -/
theorem C8_smart_query_pipeline (rc : RestClient) (ioPub : Bytes) (addr : String)
    (query : Json) (nonceEntropy : Bytes) (hashResp : String) (smart : String) (j : Json) :
    queryContractSmart rc ioPub addr query nonceEntropy hashResp (.success smart) = .ok j ↔
      smartQueryPipeline rc.enigmautils ioPub
        ((rc.enigmautils.encrypt ioPub nonceEntropy
            (getCodeHashByContractAddr rc.codeHashCache addr hashResp).1 query).take 32)
        smart = some j := by
  simp only [queryContractSmart, smartQueryPipeline]
  cases h1 : fromBase64 smart with
  | none => simp
  | some bz =>
    simp only [Option.some_bind]
    cases h2 : rc.enigmautils.decrypt ioPub bz
        ((rc.enigmautils.encrypt ioPub nonceEntropy
          (getCodeHashByContractAddr rc.codeHashCache addr hashResp).1 query).take 32) with
    | error e => simp [Except.toOption]
    | ok pt =>
      simp only [Except.toOption, Option.some_bind]
      cases h3 : fromUtf8 pt with
      | none => simp
      | some s1 =>
        simp only [Option.some_bind]
        cases h4 : fromBase64 s1 with
        | none => simp
        | some bz2 =>
          simp only [Option.some_bind]
          cases h5 : fromUtf8 bz2 with
          | none => simp
          | some s2 =>
            simp only [Option.some_bind]
            cases h6 : parseJson s2 with
            | none => simp
            | some j2 => simp

/-- The pipeline inverts a well-formed double-encoded sealed document. -/
theorem smartQueryPipeline_eval (st : EnigmaUtils) (ioPub nonce : Bytes) (s : String) :
    smartQueryPipeline st ioPub nonce
        (toBase64 (sivSeal (getTxEncryptionKey st.privkey ioPub nonce)
          (toUtf8 (toBase64 (toUtf8 s))))) =
      parseJson s := by
  unfold smartQueryPipeline
  rw [fromBase64_toBase64]
  simp only [Option.some_bind]
  have hne : ¬ (sivSeal (getTxEncryptionKey st.privkey ioPub nonce)
      (toUtf8 (toBase64 (toUtf8 s)))).length = 0 := by
    rw [sivSeal_length]
    omega
  have hdec : st.decrypt ioPub
      (sivSeal (getTxEncryptionKey st.privkey ioPub nonce) (toUtf8 (toBase64 (toUtf8 s))))
      nonce = .ok (toUtf8 (toBase64 (toUtf8 s))) := by
    unfold EnigmaUtils.decrypt
    simp [hne, sivOpen_sivSeal]
  rw [hdec]
  simp only [Except.toOption, Option.some_bind]
  rw [fromUtf8_toUtf8]
  simp only [Option.some_bind]
  rw [fromBase64_toBase64]
  simp only [Option.some_bind]
  rw [fromUtf8_toUtf8]
  simp only [Option.some_bind]

/-- C8 witness: a concrete double-encoded sealed `null` document is
decoded by the full pipeline. -/
theorem C8_smart_query_pipeline_witness :
    queryContractSmart wRestClient wIoPub "addr" (Json.str "q") wNonce "hash"
        (.success wSmart) = .ok Json.null := by
  apply (C8_smart_query_pipeline wRestClient wIoPub "addr" (Json.str "q") wNonce "hash"
      wSmart Json.null).mpr
  have hTake : (wRestClient.enigmautils.encrypt wIoPub wNonce
      (getCodeHashByContractAddr wRestClient.codeHashCache "addr" "hash").1
      (Json.str "q")).take 32 = wNonce := by
    unfold EnigmaUtils.encrypt
    rw [List.append_assoc]
    exact List.take_left' (by rfl)
  rw [hTake]
  have hsmart : wSmart = toBase64 (sivSeal
      (getTxEncryptionKey wRestClient.enigmautils.privkey wIoPub wNonce)
      (toUtf8 (toBase64 (toUtf8 "null")))) := rfl
  rw [hsmart, smartQueryPipeline_eval]
  rfl

/-- C9: Fee table merge — the signing client's fee table takes each of
upload, init, exec and send from `customFees` when that entry is
present and from the built-in defaults otherwise; with no `customFees`
it is exactly the defaults. -/
theorem C9_fee_table_merge (c : PartialFeeTable) :
    signingFeeTable none = defaultFees ∧
    (∀ f, c.upload = some f → (signingFeeTable (some c)).upload = f) ∧
    (c.upload = none → (signingFeeTable (some c)).upload = defaultFees.upload) ∧
    (∀ f, c.init = some f → (signingFeeTable (some c)).init = f) ∧
    (c.init = none → (signingFeeTable (some c)).init = defaultFees.init) ∧
    (∀ f, c.exec = some f → (signingFeeTable (some c)).exec = f) ∧
    (c.exec = none → (signingFeeTable (some c)).exec = defaultFees.exec) ∧
    (∀ f, c.send = some f → (signingFeeTable (some c)).send = f) ∧
    (c.send = none → (signingFeeTable (some c)).send = defaultFees.send) := by
  refine ⟨rfl, ?_, ?_, ?_, ?_, ?_, ?_, ?_, ?_⟩ <;>
    first
      | (intro f h; simp [signingFeeTable, h])
      | (intro h; simp [signingFeeTable, h])

/-- C9 witness: a table overriding only the upload entry keeps the
default init entry. -/
theorem C9_fee_table_merge_witness :
    (signingFeeTable (some wCustomFees)).upload = { amount := [("1", "x")], gas := "9" } ∧
    (signingFeeTable (some wCustomFees)).init = defaultFees.init :=
  ⟨(C9_fee_table_merge wCustomFees).2.1 _ rfl,
    (C9_fee_table_merge wCustomFees).2.2.2.2.1 rfl⟩

/-- The txhash regex only accepts non-empty even-length upper-case hex. -/
theorem hexPairsMatcher_facts (l : List Char) (h : hexPairsMatcher l = true) :
    l ≠ [] ∧ l.length % 2 = 0 ∧ ∀ c ∈ l, isHexUp c = true := by
  induction l using hexPairsMatcher.induct with
  | case1 => cases h
  | case2 a => cases h
  | case3 a b rest ih =>
    simp only [hexPairsMatcher, Bool.and_eq_true, Bool.or_eq_true] at h
    obtain ⟨⟨ha, hb⟩, hor⟩ := h
    rcases hor with hemp | hrest
    · have hrnil : rest = [] := List.isEmpty_iff.1 hemp
      subst hrnil
      refine ⟨by simp, by simp, ?_⟩
      intro c hc
      rcases List.mem_cons.1 hc with rfl | hc2
      · exact ha
      · rcases List.mem_cons.1 hc2 with rfl | hc3
        · exact hb
        · cases hc3
    · obtain ⟨-, hlen, hall⟩ := ih hrest
      refine ⟨by simp, ?_, ?_⟩
      · simp only [List.length_cons]
        omega
      · intro c hc
        rcases List.mem_cons.1 hc with rfl | hc2
        · exact ha
        · rcases List.mem_cons.1 hc2 with rfl | hc3
          · exact hb
          · exact hall c hc3

/-- C10: `postTx` guarantees — the call fails whenever the response's
txhash does not match `^([0-9A-F][0-9A-F])+$` or its `code` is present
and nonzero; whenever it returns, `transactionHash` is the response's
txhash and hence a non-empty even-length upper-case hex string, `logs`
is the parsed `logs` (empty when the response carries none), and
`rawLog` and `data` default to the empty string. -/
theorem C10_post_tx_guarantees (resp : PostTxsResponse) :
    ((hexPairsMatcher resp.txhash.data = false ∨ codeTruthy resp.code = true) →
      ∃ e, postTx resp = .error e) ∧
    (∀ r, postTx resp = .ok r →
      r.transactionHash = resp.txhash ∧
      r.transactionHash ≠ "" ∧
      r.transactionHash.length % 2 = 0 ∧
      (∀ c ∈ r.transactionHash.data, isHexUp c = true) ∧
      r.rawLog = resp.raw_log.getD "" ∧
      r.data = resp.data.getD "" ∧
      (logsTruthy resp.logs = false → r.logs = []) ∧
      (∀ lj, resp.logs = some lj → logsTruthy resp.logs = true →
        parseLogs lj = .ok r.logs)) := by
  constructor
  · intro hbad
    unfold postTx
    by_cases h0 : resp.txhash = ""
    · rw [if_pos h0]
      exact ⟨_, rfl⟩
    · rw [if_neg h0]
      rcases hbad with hm | hc
      · simp [hm]
      · by_cases hm2 : hexPairsMatcher resp.txhash.data
        · simp [hm2, hc]
        · simp [hm2]
  · intro r hr
    unfold postTx at hr
    by_cases h0 : resp.txhash = ""
    · rw [if_pos h0] at hr
      cases hr
    · rw [if_neg h0] at hr
      by_cases hm : hexPairsMatcher resp.txhash.data = true
      · rw [if_pos hm] at hr
        by_cases hc : codeTruthy resp.code = true
        · rw [if_pos hc] at hr
          cases hr
        · rw [if_neg hc] at hr
          revert hr
          cases hparse : (if logsTruthy resp.logs = true
              then parseLogs (resp.logs.getD .null) else .ok []) with
          | error e => intro hr; cases hr
          | ok logs =>
            intro hr
            cases hr
            obtain ⟨-, heven, hall⟩ := hexPairsMatcher_facts _ hm
            refine ⟨rfl, h0, heven, hall, rfl, rfl, ?_, ?_⟩
            · intro hF
              rw [hF] at hparse
              simp at hparse
              exact hparse
            · intro lj hlj htr
              rw [if_pos htr, hlj] at hparse
              simpa using hparse
      · rw [if_neg hm] at hr
        cases hr

/-- C10 witness: a well-formed broadcast response resolves with the
expected fields and a non-empty transaction hash. -/
theorem C10_post_tx_guarantees_witness :
    postTx wPostResp = .ok wPostResult ∧ wPostResult.transactionHash ≠ "" :=
  ⟨by rfl, ((C10_post_tx_guarantees wPostResp).2 wPostResult (by rfl)).2.1⟩

end SecretJS
